import Mathlib

/-!
Verification of the indicator computation engine of the chat-trade repository.

The engines live in src/indicators/calc.py, with a second (divergent) copy of
some of them in src/app.py.  The Python code computes over pandas float64
series; the embedding models those series exactly:

* finite float values are modelled by exact rationals;
* the IEEE sentinels produced by pandas arithmetic (NaN from 0/0 and from
  missing leading values, plus and minus infinity from division of a nonzero
  value by zero) are modelled by the type PF below, whose arithmetic follows
  the IEEE rules exactly on rational payloads;
* positions that pandas reports as NaN because of insufficient history are
  modelled as none in Option-valued series where no other sentinel can occur.

No floating-point rounding is modelled: none of the claims under verification
depends on rounding, only on the undefined/sentinel structure and on exact
algebraic identities, which coincide for binary64 and exact rationals as far
as the proved statements reach.
-/

/-- Pandas float64 surrogate: NaN, plus/minus infinity, or a finite value
modelled as an exact rational. -/
inductive PF where
  | nan : PF
  | inf : PF
  | ninf : PF
  | val : ℚ → PF
deriving DecidableEq, Repr

namespace PF

/-- IEEE negation. -/
def neg : PF → PF
  | nan => nan
  | inf => ninf
  | ninf => inf
  | val q => val (-q)

/-- IEEE addition on exact payloads: NaN absorbs, opposite infinities give NaN. -/
def add : PF → PF → PF
  | nan, _ => nan
  | _, nan => nan
  | inf, ninf => nan
  | ninf, inf => nan
  | inf, _ => inf
  | _, inf => inf
  | ninf, _ => ninf
  | _, ninf => ninf
  | val a, val b => val (a + b)

/-- IEEE subtraction. -/
def sub (a b : PF) : PF := a.add b.neg

/-- IEEE multiplication: NaN absorbs, infinity times zero is NaN. -/
def mul : PF → PF → PF
  | nan, _ => nan
  | _, nan => nan
  | inf, inf => inf
  | inf, ninf => ninf
  | ninf, inf => ninf
  | ninf, ninf => inf
  | inf, val q => if q = 0 then nan else if 0 < q then inf else ninf
  | val q, inf => if q = 0 then nan else if 0 < q then inf else ninf
  | ninf, val q => if q = 0 then nan else if 0 < q then ninf else inf
  | val q, ninf => if q = 0 then nan else if 0 < q then ninf else inf
  | val a, val b => val (a * b)

/-- IEEE division: NaN absorbs, 0/0 and inf/inf are NaN, nonzero/0 is a signed
infinity (the zero produced by pandas cumulative sums is +0), x/inf is 0. -/
def div : PF → PF → PF
  | nan, _ => nan
  | _, nan => nan
  | inf, inf => nan
  | inf, ninf => nan
  | ninf, inf => nan
  | ninf, ninf => nan
  | inf, val q => if 0 ≤ q then inf else ninf
  | ninf, val q => if 0 ≤ q then ninf else inf
  | val _, inf => val 0
  | val _, ninf => val 0
  | val a, val b =>
      if b = 0 then (if a = 0 then nan else if 0 < a then inf else ninf)
      else val (a / b)

/-- IEEE strict less-than as computed by numpy: any comparison with NaN is
false. -/
def ltb : PF → PF → Bool
  | nan, _ => false
  | _, nan => false
  | _, ninf => false
  | ninf, _ => true
  | inf, _ => false
  | _, inf => true
  | val a, val b => decide (a < b)

/-- IEEE less-or-equal as computed by numpy: any comparison with NaN is
false. -/
def leb : PF → PF → Bool
  | nan, _ => false
  | _, nan => false
  | ninf, _ => true
  | _, ninf => false
  | _, inf => true
  | inf, _ => false
  | val a, val b => decide (a ≤ b)

/-- numpy greater-than. -/
def gtb (a b : PF) : Bool := ltb b a

/-- numpy greater-or-equal. -/
def geb (a b : PF) : Bool := leb b a

/-- pandas Series.clip with lower bound 0: NaN passes through. -/
def clipLower0 : PF → PF
  | nan => nan
  | inf => inf
  | ninf => val 0
  | val q => val (max q 0)

/-- pandas Series.clip with upper bound 0: NaN passes through. -/
def clipUpper0 : PF → PF
  | nan => nan
  | inf => val 0
  | ninf => ninf
  | val q => val (min q 0)

end PF

/-- One OHLCV bar of the input Bar Series (the fields the engines read). -/
structure Bar where
  high : ℚ
  low : ℚ
  close : ℚ
  volume : ℚ
deriving DecidableEq, Repr

/-- Embedding of src/indicators/calc.py, calculate_sma (identical copy in src/app.py):
`data.rolling(window=window).mean()`.  pandas yields NaN while fewer than
window observations ended at the position (min_periods defaults to the
window size); a defined position holds the mean of the window trailing
values inclusive of the position.  A zero window yields NaN everywhere
(the mean of an empty window). -/
def calculate_sma (data : List ℚ) (window : ℕ) : List (Option ℚ) :=
  (List.range data.length).map (fun i =>
    if 1 ≤ window ∧ window ≤ i + 1 then
      some (((data.drop (i + 1 - window)).take window).sum / window)
    else none)

/-- Recursion kernel of pandas ewm(span, adjust=False).mean() on a series with
no missing values: each output is alpha times the sample plus (1 - alpha)
times the previous output. -/
def emaGo (alpha : ℚ) (prev : ℚ) : List ℚ → List ℚ
  | [] => []
  | x :: xs => (alpha * x + (1 - alpha) * prev) :: emaGo alpha (alpha * x + (1 - alpha) * prev) xs

/-- Embedding of src/indicators/calc.py, calculate_ema (identical copy in src/app.py):
`data.ewm(span=window, adjust=False).mean()` with alpha = 2/(span+1); the
first output equals the first sample. -/
def calculate_ema (data : List ℚ) (window : ℕ) : List ℚ :=
  match data with
  | [] => []
  | x :: xs => x :: emaGo (2 / ((window : ℚ) + 1)) x xs

/-- pandas Series.diff(): NaN at position 0, consecutive differences after. -/
def diffPF (data : List ℚ) : List PF :=
  match data with
  | [] => []
  | x :: xs => PF.nan :: List.zipWith (fun b a => PF.val (b - a)) xs (x :: xs)

/-- pandas ewm(adjust=False).mean() state step on a series whose NaN values
can only precede the first observation (the only shape the RSI pipeline
produces): output is NaN until the first observation seeds the state, then
the adjust=False recursion runs. -/
def ewmGo (alpha : ℚ) : Option ℚ → List PF → List PF
  | _, [] => []
  | none, PF.val q :: xs => PF.val q :: ewmGo alpha (some q) xs
  | none, _ :: xs => PF.nan :: ewmGo alpha none xs
  | some v, PF.val q :: xs =>
      (PF.val (alpha * q + (1 - alpha) * v)) :: ewmGo alpha (some (alpha * q + (1 - alpha) * v)) xs
  | some v, _ :: xs => PF.val v :: ewmGo alpha (some v) xs

/-- pandas ewm(adjust=False).mean() over a PF series with at most a leading
NaN run. -/
def ewmPF (alpha : ℚ) (xs : List PF) : List PF := ewmGo alpha none xs

/-- Embedding of src/indicators/calc.py, calculate_rsi: Wilder-style RSI.  diff, clip into
gains and losses, ewm with center of mass window-1 (alpha = 1/(1+com)),
then rs = roll_up / roll_down and rsi = 100 - 100/(1+rs), with no explicit
branch for a zero denominator: pandas division produces inf or NaN. -/
def calculate_rsi (data : List ℚ) (window : ℕ) : List PF :=
  let delta := diffPF data
  let up := delta.map PF.clipLower0
  let down := delta.map (fun d => PF.mul (PF.val (-1)) (PF.clipUpper0 d))
  let alpha : ℚ := 1 / (1 + ((window : ℚ) - 1))
  let roll_up := ewmPF alpha up
  let roll_down := ewmPF alpha down
  let rs := List.zipWith PF.div roll_up roll_down
  rs.map (fun r => PF.sub (PF.val 100) (PF.div (PF.val 100) (PF.add (PF.val 1) r)))

/-- Embedding of src/indicators/calc.py, calculate_macd (identical copy in src/app.py):
fast and slow EMA, their difference, an EMA of the difference, and the
histogram as the literal elementwise subtraction of the two. -/
def calculate_macd (data : List ℚ) (fast_period slow_period signal_period : ℕ) :
    List ℚ × List ℚ × List ℚ :=
  let fast_ema := calculate_ema data fast_period
  let slow_ema := calculate_ema data slow_period
  let macd_line := List.zipWith (fun a b => a - b) fast_ema slow_ema
  let signal_line := calculate_ema macd_line signal_period
  let macd_histogram := List.zipWith (fun a b => a - b) macd_line signal_line
  (macd_line, signal_line, macd_histogram)

/-- pandas typical price of a bar: (high + low + close) / 3. -/
def typical_price (b : Bar) : ℚ := (b.high + b.low + b.close) / 3

/-- pandas Series.cumsum() kernel with an explicit accumulator. -/
def cumsumGo (acc : ℚ) : List ℚ → List ℚ
  | [] => []
  | x :: xs => (acc + x) :: cumsumGo (acc + x) xs

/-- pandas Series.cumsum() on a series with no missing values. -/
def cumsum (xs : List ℚ) : List ℚ := cumsumGo 0 xs

/-- Embedding of src/indicators/calc.py, calculate_vwap (identical copy in src/app.py):
cumulative sum of typical price times volume divided elementwise by the
cumulative sum of volume; the division is pandas float division, so a zero
cumulative volume produces NaN (0/0) or a signed infinity. -/
def calculate_vwap (df : List Bar) : List PF :=
  let tp := df.map typical_price
  let num := cumsum (List.zipWith (fun t b => t * b.volume) tp df)
  let den := cumsum (df.map Bar.volume)
  List.zipWith (fun n d => PF.div (PF.val n) (PF.val d)) num den

/-- A pandas float series holding finite values where defined and NaN at the
undefined positions, as produced by rolling windows over finite data. -/
def smaPF (data : List ℚ) (window : ℕ) : List PF :=
  (calculate_sma data window).map (fun o => match o with
    | none => PF.nan
    | some q => PF.val q)

/-- The buy comparison of the crossover loop at step i, over the pandas
series: sma[i-1] <= vwap[i-1] and sma[i] > vwap[i], NaN comparing false. -/
def buyCondB (sma vwap : List PF) (i : ℕ) : Bool :=
  PF.leb (sma.getD (i-1) PF.nan) (vwap.getD (i-1) PF.nan) &&
  PF.gtb (sma.getD i PF.nan) (vwap.getD i PF.nan)

/-- The sell comparison of the crossover loop at step i:
sma[i-1] >= vwap[i-1] and sma[i] < vwap[i], NaN comparing false. -/
def sellCondB (sma vwap : List PF) (i : ℕ) : Bool :=
  PF.geb (sma.getD (i-1) PF.nan) (vwap.getD (i-1) PF.nan) &&
  PF.ltb (sma.getD i PF.nan) (vwap.getD i PF.nan)

/-- One iteration of the crossover loop of src/indicators/calc.py,
calculate_vwap_crossover (lines 138-147): for i from 1 on, the buy slot i is
set to close[i] when the buy comparison holds and the sell slot i is set to
close[i] when the sell comparison holds; iteration 0 never runs. -/
def detectStep (sma vwap : List PF) (close : List ℚ)
    (acc : List (Option ℚ) × List (Option ℚ)) (i : ℕ) :
    List (Option ℚ) × List (Option ℚ) :=
  if 1 ≤ i then
    (if buyCondB sma vwap i then acc.1.set i (some (close.getD i 0)) else acc.1,
     if sellCondB sma vwap i then acc.2.set i (some (close.getD i 0)) else acc.2)
  else acc

/-- The crossover loop of src/indicators/calc.py, calculate_vwap_crossover
(lines 134-149): two signal series initialized undefined over the index of
the frame, then the loop body above for every index. -/
def detect_crossovers (sma vwap : List PF) (close : List ℚ) :
    List (Option ℚ) × List (Option ℚ) :=
  let n := close.length
  (List.range n).foldl (detectStep sma vwap close)
    (List.replicate n (none : Option ℚ), List.replicate n (none : Option ℚ))

/-- The crossover loop stopped after its first k iterations, for the
induction on the loop. -/
def detectAux (sma vwap : List PF) (close : List ℚ) (k : ℕ) :
    List (Option ℚ) × List (Option ℚ) :=
  (List.range k).foldl (detectStep sma vwap close)
    (List.replicate close.length (none : Option ℚ),
     List.replicate close.length (none : Option ℚ))

/-- Embedding of src/indicators/calc.py, calculate_vwap_crossover: SMA of the close over
the period against the session VWAP, scanned by the loop above. -/
def calculate_vwap_crossover (df : List Bar) (sma_period : ℕ) :
    List (Option ℚ) × List (Option ℚ) :=
  detect_crossovers (smaPF (df.map Bar.close) sma_period) (calculate_vwap df) (df.map Bar.close)

namespace App

/-- Embedding of src/app.py, calculate_rsi: the divergent plain rolling-mean RSI.  Gains
are delta.where(delta > 0, 0) and losses are -(delta.where(delta < 0, 0)):
where replaces every position failing the condition, including the leading
NaN of diff, by 0. -/
def whereGain (d : PF) : PF := if PF.gtb d (PF.val 0) then d else PF.val 0

/-- The loss branch of src/app.py calculate_rsi before negation. -/
def whereLoss (d : PF) : PF := if PF.ltb d (PF.val 0) then d else PF.val 0

/-- Collect the payloads of an all-finite PF list; none as soon as any
sentinel appears. -/
def pfVals : List PF → Option (List ℚ)
  | [] => some []
  | PF.val q :: xs => (pfVals xs).map (fun l => q :: l)
  | _ :: _ => none

/-- pandas rolling(window).mean() over a PF series: NaN during the leading
partial windows, NaN for any window containing a sentinel (min_periods counts
actual observations), else the window mean. -/
def rollingMeanPF (xs : List PF) (window : ℕ) : List PF :=
  (List.range xs.length).map (fun i =>
    if 1 ≤ window ∧ window ≤ i + 1 then
      match pfVals ((xs.drop (i + 1 - window)).take window) with
      | some qs => PF.val (qs.sum / window)
      | none => PF.nan
    else PF.nan)

/-- Embedding of src/app.py, calculate_rsi (lines 50-66): rolling means of gains and
losses over the window, rs = gain/loss, rsi = 100 - 100/(1+rs), again with
no branch for the zero denominator. -/
def calculate_rsi (data : List ℚ) (window : ℕ) : List PF :=
  let delta := diffPF data
  let gain := rollingMeanPF (delta.map whereGain) window
  let loss := rollingMeanPF (delta.map (fun d => PF.neg (whereLoss d))) window
  let rs := List.zipWith PF.div gain loss
  rs.map (fun r => PF.sub (PF.val 100) (PF.div (PF.val 100) (PF.add (PF.val 1) r)))

/-- pandas Series.shift(1): NaN enters at position 0, the last value drops
off, the length is unchanged. -/
def shift1 (xs : List PF) : List PF := (PF.nan :: xs).take xs.length

/-- Embedding of src/app.py, calculate_vwap_crossover (lines 117-148): the vectorized
variant.  Boolean masks (sma > vwap) & (prev_sma <= prev_vwap) and
(sma < vwap) & (prev_sma >= prev_vwap) over the shifted series, then the
close price where the mask holds and an undefined value elsewhere. -/
def calculate_vwap_crossover (df : List Bar) (sma_period : ℕ) :
    List (Option ℚ) × List (Option ℚ) :=
  let vwap := calculate_vwap df
  let sma := smaPF (df.map Bar.close) sma_period
  let prev_sma := shift1 sma
  let prev_vwap := shift1 vwap
  let buy_signal := List.zipWith (fun p q => p && q)
    (List.zipWith PF.gtb sma vwap) (List.zipWith PF.leb prev_sma prev_vwap)
  let sell_signal := List.zipWith (fun p q => p && q)
    (List.zipWith PF.ltb sma vwap) (List.zipWith PF.geb prev_sma prev_vwap)
  (List.zipWith (fun s c => if s then some c else none) buy_signal (df.map Bar.close),
   List.zipWith (fun s c => if s then some c else none) sell_signal (df.map Bar.close))

end App

/-- Embedding of src/indicators/calc.py, calculate_bollinger_bands, rolling std component
(identical copy in src/app.py): `data.rolling(window=window).std()`.  pandas
uses the sample definition (ddof = 1): NaN during the leading partial
windows, NaN everywhere for window 1 (division by zero observations minus
one), else the square root of the sum of squared deviations from the window
mean divided by window - 1. -/
noncomputable def rolling_std (data : List ℚ) (window : ℕ) : List (Option ℝ) :=
  (List.range data.length).map (fun i =>
    if 2 ≤ window ∧ window ≤ i + 1 then
      let win : List ℝ := ((data.drop (i + 1 - window)).take window).map (fun q => (q : ℝ))
      let m : ℝ := win.sum / window
      some (Real.sqrt ((win.map (fun x => (x - m) ^ 2)).sum / ((window : ℝ) - 1)))
    else none)

/-- Embedding of src/indicators/calc.py, calculate_bollinger_bands (identical copy in
src/app.py): middle band is the rolling mean, std the rolling standard
deviation, upper = middle + std * num_std, lower = middle - std * num_std;
an undefined operand makes the position undefined (NaN propagates through
addition). -/
noncomputable def calculate_bollinger_bands (data : List ℚ) (window : ℕ) (num_std : ℝ) :
    List (Option ℝ) × List (Option ℝ) × List (Option ℝ) :=
  let middle_band := (calculate_sma data window).map (Option.map (fun q : ℚ => (q : ℝ)))
  let std_dev := rolling_std data window
  let upper_band := List.zipWith (fun m s =>
    match m, s with
    | some mv, some sv => some (mv + sv * num_std)
    | _, _ => none) middle_band std_dev
  let lower_band := List.zipWith (fun m s =>
    match m, s with
    | some mv, some sv => some (mv - sv * num_std)
    | _, _ => none) middle_band std_dev
  (upper_band, middle_band, lower_band)

/-- Parameter validation performed by the pandas rolling constructor invoked
by calculate_sma: a negative window raises ValueError immediately, before any
computation; window 0 is accepted (pandas message: window must be an integer
0 or greater) and the windowed mean then yields NaN at every position. -/
def calculate_sma_checked (data : List ℚ) (window : ℤ) : Except String (List (Option ℚ)) :=
  if window < 0 then Except.error "window must be an integer 0 or greater"
  else Except.ok (calculate_sma data window.toNat)

/-- Parameter validation performed by the pandas ewm constructor invoked by
calculate_ema (and by calculate_macd for all three periods): a span below 1
raises ValueError immediately, before any computation. -/
def calculate_ema_checked (data : List ℚ) (span : ℤ) : Except String (List ℚ) :=
  if span < 1 then Except.error "span must satisfy: span >= 1"
  else Except.ok (calculate_ema data span.toNat)

/-- Parameter validation performed by the pandas ewm constructor invoked by
calculate_rsi of src/indicators/calc.py with center of mass window - 1: a
center of mass below 0, i.e. a window below 1, raises ValueError immediately,
before any computation. -/
def calculate_rsi_checked (data : List ℚ) (window : ℤ) : Except String (List PF) :=
  if window - 1 < 0 then Except.error "comass must satisfy: comass >= 0"
  else Except.ok (calculate_rsi data window.toNat)

/-- The cumulative sum of typical price times volume through index i, as the
spec words the VWAP numerator. -/
def cumPV (df : List Bar) (i : ℕ) : ℚ :=
  ((df.map (fun b => typical_price b * b.volume)).take (i + 1)).sum

/-- The cumulative sum of volume through index i, as the spec words the VWAP
denominator. -/
def cumVol (df : List Bar) (i : ℕ) : ℚ :=
  ((df.map Bar.volume).take (i + 1)).sum

section ListLemmas

theorem getD_map_range {α : Type} (f : ℕ → α) (n i : ℕ) (d : α) :
    ((List.range n).map f).getD i d = if i < n then f i else d := by
  rcases lt_or_le i n with h | h
  · rw [List.getD_eq_getElem] <;> simp [h]
  · rw [List.getD_eq_default] <;> simp [Nat.not_lt.mpr h, h]

theorem getD_drop_take (l : List ℚ) (a b j : ℕ) (hj : j < b) (h : a + b ≤ l.length) :
    ((l.drop a).take b).getD j 0 = l.getD (a + j) 0 := by
  have h1 : j < ((l.drop a).take b).length := by
    simp only [List.length_take, List.length_drop]; omega
  have h2 : a + j < l.length := by omega
  rw [List.getD_eq_getElem _ _ h1, List.getD_eq_getElem _ _ h2]
  simp [List.getElem_take, List.getElem_drop]

theorem sum_getD_eq (l : List ℚ) : l.sum = ∑ j in Finset.range l.length, l.getD j 0 := by
  induction l with
  | nil => simp
  | cons x t ih =>
      rw [List.sum_cons, List.length_cons, Finset.sum_range_succ']
      simp [ih, add_comm]

theorem slice_sum (l : List ℚ) (a b : ℕ) (h : a + b ≤ l.length) :
    ((l.drop a).take b).sum = ∑ j in Finset.range b, l.getD (a + j) 0 := by
  have hlen : ((l.drop a).take b).length = b := by
    simp only [List.length_take, List.length_drop]; omega
  rw [sum_getD_eq, hlen]
  exact Finset.sum_congr rfl (fun j hj => getD_drop_take l a b j (Finset.mem_range.mp hj) h)

theorem getD_zipWith {α β γ : Type} (f : α → β → γ) (xs : List α) (ys : List β)
    (i : ℕ) (da : α) (db : β) (dc : γ) (h1 : i < xs.length) (h2 : i < ys.length) :
    (List.zipWith f xs ys).getD i dc = f (xs.getD i da) (ys.getD i db) := by
  have h3 : i < (List.zipWith f xs ys).length := by
    simp only [List.length_zipWith]; omega
  rw [List.getD_eq_getElem _ _ h3, List.getD_eq_getElem _ _ h1, List.getD_eq_getElem _ _ h2]
  simp [List.getElem_zipWith]

theorem sum_zero_all_zero (l : List ℚ) :
    (∀ x ∈ l, 0 ≤ x) → l.sum = 0 → ∀ x ∈ l, x = 0 := by
  induction l with
  | nil => intro _ _ x hx; simp at hx
  | cons x t ih =>
      intro h hs y hy
      rw [List.sum_cons] at hs
      have hx : 0 ≤ x := h x (List.mem_cons_self x t)
      have ht : ∀ z ∈ t, 0 ≤ z := fun z hz => h z (List.mem_cons_of_mem x hz)
      have hts : 0 ≤ t.sum := List.sum_nonneg ht
      rcases List.mem_cons.mp hy with rfl | hyt
      · linarith
      · exact ih ht (by linarith) y hyt

end ListLemmas

section KernelLemmas

theorem emaGo_length (a : ℚ) (xs : List ℚ) : ∀ p : ℚ, (emaGo a p xs).length = xs.length := by
  induction xs with
  | nil => intro p; rfl
  | cons x t ih => intro p; simp [emaGo, ih]

theorem emaGo_getD (a : ℚ) (xs : List ℚ) :
    ∀ (p : ℚ) (i : ℕ), i < xs.length →
      (emaGo a p xs).getD i 0 =
        a * xs.getD i 0 + (1 - a) * (if i = 0 then p else (emaGo a p xs).getD (i - 1) 0) := by
  induction xs with
  | nil => intro p i h; simp at h
  | cons x t ih =>
      intro p i h
      match i with
      | 0 => simp [emaGo]
      | Nat.succ j =>
          have hj : j < t.length := by
            simpa using h
          show (emaGo a p (x :: t)).getD (j + 1) 0 = _
          rw [show emaGo a p (x :: t) =
            (a * x + (1 - a) * p) :: emaGo a (a * x + (1 - a) * p) t from rfl]
          rw [List.getD_cons_succ]
          rw [ih (a * x + (1 - a) * p) j hj]
          match j with
          | 0 => simp
          | Nat.succ k => simp [List.getD_cons_succ]

theorem cumsumGo_length (xs : List ℚ) : ∀ acc : ℚ, (cumsumGo acc xs).length = xs.length := by
  induction xs with
  | nil => intro acc; rfl
  | cons x t ih => intro acc; simp [cumsumGo, ih]

theorem cumsumGo_getD (xs : List ℚ) :
    ∀ (acc : ℚ) (i : ℕ), i < xs.length →
      (cumsumGo acc xs).getD i 0 = acc + (xs.take (i + 1)).sum := by
  induction xs with
  | nil => intro acc i h; simp at h
  | cons x t ih =>
      intro acc i h
      match i with
      | 0 => simp [cumsumGo]
      | Nat.succ j =>
          have hj : j < t.length := by simpa using h
          show (cumsumGo acc (x :: t)).getD (j + 1) 0 = _
          rw [show cumsumGo acc (x :: t) = (acc + x) :: cumsumGo (acc + x) t from rfl]
          rw [List.getD_cons_succ, ih (acc + x) j hj, List.take_succ_cons, List.sum_cons]
          ring

theorem length_sma (data : List ℚ) (w : ℕ) : (calculate_sma data w).length = data.length := by
  simp [calculate_sma]

theorem length_smaPF (data : List ℚ) (w : ℕ) : (smaPF data w).length = data.length := by
  simp [smaPF, length_sma]

theorem length_ema (data : List ℚ) (w : ℕ) : (calculate_ema data w).length = data.length := by
  cases data with
  | nil => rfl
  | cons x xs => simp [calculate_ema, emaGo_length]

theorem length_vwap (df : List Bar) : (calculate_vwap df).length = df.length := by
  simp [calculate_vwap, cumsum, cumsumGo_length, List.length_zipWith]

end KernelLemmas

section PFLemmas

theorem PF.ltb_asymm (a b : PF) (h : PF.ltb a b = true) : PF.ltb b a = false := by
  cases a <;> cases b <;> simp_all [PF.ltb]
  linarith

theorem PF.leb_nan_left (x : PF) : PF.leb PF.nan x = false := by
  cases x <;> rfl

theorem PF.leb_nan_right (x : PF) : PF.leb x PF.nan = false := by
  cases x <;> rfl

theorem PF.ltb_nan_left (x : PF) : PF.ltb PF.nan x = false := by
  cases x <;> rfl

theorem PF.ltb_nan_right (x : PF) : PF.ltb x PF.nan = false := by
  cases x <;> rfl

end PFLemmas

section CrossoverLemmas

theorem detect_crossovers_eq_aux (sma vwap : List PF) (close : List ℚ) :
    detect_crossovers sma vwap close = detectAux sma vwap close close.length := rfl

theorem getD_replicate_none {α : Type} (n i : ℕ) :
    (List.replicate n (none : Option α)).getD i none = none := by
  rcases lt_or_le i n with h | h
  · rw [List.getD_eq_getElem _ _ (by simpa using h)]
    simp
  · rw [List.getD_eq_default]
    simpa using h

theorem getD_set_same {α : Type} (l : List α) (i : ℕ) (x d : α) (h : i < l.length) :
    (l.set i x).getD i d = x := by
  rw [List.getD_eq_getElem _ _ (by simpa using h)]
  simp [List.getElem_set, h]

theorem getD_set_other {α : Type} (l : List α) (i j : ℕ) (x d : α) (h : i ≠ j) :
    (l.set i x).getD j d = l.getD j d := by
  rcases lt_or_le j l.length with hj | hj
  · rw [List.getD_eq_getElem _ _ (by simpa using hj), List.getD_eq_getElem _ _ hj]
    simp [List.getElem_set, h]
  · rw [List.getD_eq_default, List.getD_eq_default] <;> simpa using hj

theorem detectAux_spec (sma vwap : List PF) (close : List ℚ) :
    ∀ k, k ≤ close.length →
      (detectAux sma vwap close k).1.length = close.length ∧
      (detectAux sma vwap close k).2.length = close.length ∧
      (∀ i, (detectAux sma vwap close k).1.getD i none =
        if 1 ≤ i ∧ i < k ∧ buyCondB sma vwap i = true then some (close.getD i 0) else none) ∧
      (∀ i, (detectAux sma vwap close k).2.getD i none =
        if 1 ≤ i ∧ i < k ∧ sellCondB sma vwap i = true then some (close.getD i 0) else none) := by
  intro k
  induction k with
  | zero =>
      intro _
      refine ⟨by simp [detectAux], by simp [detectAux], fun i => ?_, fun i => ?_⟩ <;>
        simp [detectAux, getD_replicate_none]
  | succ k ih =>
      intro hk
      have hk' : k ≤ close.length := Nat.le_of_succ_le hk
      have hklt : k < close.length := hk
      obtain ⟨hl1, hl2, hb, hs⟩ := ih hk'
      have hstep : detectAux sma vwap close (k + 1) =
          detectStep sma vwap close (detectAux sma vwap close k) k := by
        unfold detectAux
        rw [List.range_succ, List.foldl_append, List.foldl_cons, List.foldl_nil]
      by_cases h1k : 1 ≤ k
      · have hbuy1 : ∀ i, (detectAux sma vwap close (k + 1)).1.getD i none =
            if 1 ≤ i ∧ i < k + 1 ∧ buyCondB sma vwap i = true
            then some (close.getD i 0) else none := by
          intro i
          rw [hstep]
          unfold detectStep
          rw [if_pos h1k]
          by_cases hik : i = k
          · subst hik
            by_cases hcond : buyCondB sma vwap i = true
            · simp only [hcond, if_true]
              rw [getD_set_same _ _ _ _ (by rw [hl1]; exact hklt)]
              simp [h1k, hcond]
            · have hcf : buyCondB sma vwap i = false := by simpa using hcond
              simp only [hcf, Bool.false_eq_true, if_false]
              rw [hb i]
              simp
          · have heq : (if buyCondB sma vwap k then
                (detectAux sma vwap close k).1.set k (some (close.getD k 0))
                else (detectAux sma vwap close k).1).getD i none =
                (detectAux sma vwap close k).1.getD i none := by
              by_cases hcond : buyCondB sma vwap k = true
              · simp only [hcond, if_true]
                exact getD_set_other _ _ _ _ _ (fun h => hik (h.symm))
              · simp [hcond]
            rw [heq, hb i]
            by_cases hik' : i < k
            · simp [hik', Nat.lt_succ_of_lt hik']
            · have : ¬ i < k + 1 := by omega
              simp [hik', this]
        have hsell1 : ∀ i, (detectAux sma vwap close (k + 1)).2.getD i none =
            if 1 ≤ i ∧ i < k + 1 ∧ sellCondB sma vwap i = true
            then some (close.getD i 0) else none := by
          intro i
          rw [hstep]
          unfold detectStep
          rw [if_pos h1k]
          by_cases hik : i = k
          · subst hik
            by_cases hcond : sellCondB sma vwap i = true
            · simp only [hcond, if_true]
              rw [getD_set_same _ _ _ _ (by rw [hl2]; exact hklt)]
              simp [h1k, hcond]
            · have hcf : sellCondB sma vwap i = false := by simpa using hcond
              simp only [hcf, Bool.false_eq_true, if_false]
              rw [hs i]
              simp
          · have heq : (if sellCondB sma vwap k then
                (detectAux sma vwap close k).2.set k (some (close.getD k 0))
                else (detectAux sma vwap close k).2).getD i none =
                (detectAux sma vwap close k).2.getD i none := by
              by_cases hcond : sellCondB sma vwap k = true
              · simp only [hcond, if_true]
                exact getD_set_other _ _ _ _ _ (fun h => hik (h.symm))
              · simp [hcond]
            rw [heq, hs i]
            by_cases hik' : i < k
            · simp [hik', Nat.lt_succ_of_lt hik']
            · have : ¬ i < k + 1 := by omega
              simp [hik', this]
        refine ⟨?_, ?_, hbuy1, hsell1⟩
        · rw [hstep]; unfold detectStep
          rw [if_pos h1k]
          by_cases hcond : buyCondB sma vwap k = true <;> simp [hcond, hl1]
        · rw [hstep]; unfold detectStep
          rw [if_pos h1k]
          by_cases hcond : sellCondB sma vwap k = true <;> simp [hcond, hl2]
      · have hk0 : k = 0 := by omega
        subst hk0
        have hnoop : detectAux sma vwap close 1 = detectAux sma vwap close 0 := by
          rw [hstep]
          unfold detectStep
          simp
        rw [hnoop]
        refine ⟨hl1, hl2, fun i => ?_, fun i => ?_⟩
        · rw [hb i]
          have h0 : ¬(1 ≤ i ∧ i < 0 ∧ buyCondB sma vwap i = true) := by
            rintro ⟨a, b, c⟩; omega
          have h1 : ¬(1 ≤ i ∧ i < 1 ∧ buyCondB sma vwap i = true) := by
            rintro ⟨a, b, c⟩; omega
          rw [if_neg h0, if_neg h1]
        · rw [hs i]
          have h0 : ¬(1 ≤ i ∧ i < 0 ∧ sellCondB sma vwap i = true) := by
            rintro ⟨a, b, c⟩; omega
          have h1 : ¬(1 ≤ i ∧ i < 1 ∧ sellCondB sma vwap i = true) := by
            rintro ⟨a, b, c⟩; omega
          rw [if_neg h0, if_neg h1]

theorem detect_fst_getD (sma vwap : List PF) (close : List ℚ) (i : ℕ) :
    (detect_crossovers sma vwap close).1.getD i none =
      if 1 ≤ i ∧ i < close.length ∧ buyCondB sma vwap i = true
      then some (close.getD i 0) else none := by
  rw [detect_crossovers_eq_aux]
  exact (detectAux_spec sma vwap close close.length le_rfl).2.2.1 i

theorem detect_snd_getD (sma vwap : List PF) (close : List ℚ) (i : ℕ) :
    (detect_crossovers sma vwap close).2.getD i none =
      if 1 ≤ i ∧ i < close.length ∧ sellCondB sma vwap i = true
      then some (close.getD i 0) else none := by
  rw [detect_crossovers_eq_aux]
  exact (detectAux_spec sma vwap close close.length le_rfl).2.2.2 i

theorem detect_fst_length (sma vwap : List PF) (close : List ℚ) :
    (detect_crossovers sma vwap close).1.length = close.length := by
  rw [detect_crossovers_eq_aux]
  exact (detectAux_spec sma vwap close close.length le_rfl).1

theorem detect_snd_length (sma vwap : List PF) (close : List ℚ) :
    (detect_crossovers sma vwap close).2.length = close.length := by
  rw [detect_crossovers_eq_aux]
  exact (detectAux_spec sma vwap close close.length le_rfl).2.1

end CrossoverLemmas

/-- C2: for every series s and every window w with 1 <= w <= len s, SMA(s, w)
has the same length as s, positions 0 through w-2 are undefined, and every
position i >= w-1 holds the arithmetic mean of the w trailing values
s[i-w+1..i] inclusive of i. -/
theorem sma_window_semantics (s : List ℚ) (w : ℕ) (h1 : 1 ≤ w) (h2 : w ≤ s.length) :
    (calculate_sma s w).length = s.length ∧
    (∀ i, i + 1 < w → (calculate_sma s w).getD i none = none) ∧
    (∀ i, w ≤ i + 1 → i < s.length →
      (calculate_sma s w).getD i none =
        some ((∑ j in Finset.range w, s.getD (i + 1 - w + j) 0) / w)) := by
  refine ⟨length_sma s w, ?_, ?_⟩
  · intro i hi
    rw [calculate_sma, getD_map_range]
    by_cases hil : i < s.length
    · rw [if_pos hil, if_neg]
      rintro ⟨-, hw⟩
      omega
    · rw [if_neg hil]
  · intro i hw hil
    rw [calculate_sma, getD_map_range, if_pos hil, if_pos ⟨h1, hw⟩,
      slice_sum s (i + 1 - w) w (by omega)]

/-- Witness for C2 at s = [1, 2, 3], w = 2: length 3, position 0 undefined,
position 2 the trailing mean. -/
theorem sma_window_semantics_witness :
    (calculate_sma [1, 2, 3] 2).length = 3 ∧
    (calculate_sma [1, 2, 3] 2).getD 0 none = none ∧
    (calculate_sma [1, 2, 3] 2).getD 2 none =
      some ((∑ j in Finset.range 2, [(1 : ℚ), 2, 3].getD (2 + 1 - 2 + j) 0) / 2) := by
  obtain ⟨ha, hb, hc⟩ := sma_window_semantics [1, 2, 3] 2 (by norm_num) (by norm_num)
  exact ⟨ha, hb 0 (by norm_num), hc 2 (by norm_num) (by norm_num)⟩

/-- C3: for every non-empty series s and positive span, EMA(s, span) has the
length of s (no position undefined), EMA[0] = s[0], and for i >= 1 the
recursion EMA[i] = alpha * s[i] + (1 - alpha) * EMA[i-1] holds with
alpha = 2/(span+1). -/
theorem ema_seed_recursion (s : List ℚ) (span : ℕ) (hspan : 1 ≤ span) (hne : s ≠ []) :
    (calculate_ema s span).length = s.length ∧
    (calculate_ema s span).getD 0 0 = s.getD 0 0 ∧
    (∀ i, 1 ≤ i → i < s.length →
      (calculate_ema s span).getD i 0 =
        (2 / ((span : ℚ) + 1)) * s.getD i 0 +
        (1 - 2 / ((span : ℚ) + 1)) * (calculate_ema s span).getD (i - 1) 0) := by
  match s with
  | [] => exact absurd rfl hne
  | x :: xs =>
      refine ⟨length_ema _ _, by simp [calculate_ema], ?_⟩
      intro i h1 hil
      obtain ⟨j, rfl⟩ : ∃ j, i = j + 1 := ⟨i - 1, by omega⟩
      have hj : j < xs.length := by simpa using hil
      have hcons : calculate_ema (x :: xs) span =
          x :: emaGo (2 / ((span : ℚ) + 1)) x xs := rfl
      rw [hcons, List.getD_cons_succ, emaGo_getD _ _ _ _ hj]
      cases j with
      | zero => simp
      | succ k => simp [List.getD_cons_succ]

/-- Witness for C3 at s = [1, 2], span = 3: seed and one recursion step. -/
theorem ema_seed_recursion_witness :
    (calculate_ema [1, 2] 3).length = 2 ∧
    (calculate_ema [1, 2] 3).getD 0 0 = [(1 : ℚ), 2].getD 0 0 ∧
    (calculate_ema [1, 2] 3).getD 1 0 =
      (2 / ((3 : ℚ) + 1)) * [(1 : ℚ), 2].getD 1 0 +
      (1 - 2 / ((3 : ℚ) + 1)) * (calculate_ema [1, 2] 3).getD 0 0 := by
  obtain ⟨ha, hb, hc⟩ := ema_seed_recursion [1, 2] 3 (by norm_num) (by simp)
  exact ⟨ha, hb, hc 1 le_rfl (by norm_num)⟩

/-- C4: at every index of the input, the MACD histogram equals the MACD line
minus the signal line exactly, the MACD line being the difference of the fast
and slow EMA and the signal line the EMA of the MACD line. -/
theorem macd_histogram_exact (s : List ℚ) (f sl sg i : ℕ) (hi : i < s.length) :
    ((calculate_macd s f sl sg).2.2).getD i 0 =
      ((calculate_macd s f sl sg).1).getD i 0 - ((calculate_macd s f sl sg).2.1).getD i 0 := by
  have hdef : calculate_macd s f sl sg =
      (List.zipWith (fun a b => a - b) (calculate_ema s f) (calculate_ema s sl),
       calculate_ema (List.zipWith (fun a b => a - b) (calculate_ema s f)
         (calculate_ema s sl)) sg,
       List.zipWith (fun a b => a - b)
         (List.zipWith (fun a b => a - b) (calculate_ema s f) (calculate_ema s sl))
         (calculate_ema (List.zipWith (fun a b => a - b) (calculate_ema s f)
           (calculate_ema s sl)) sg)) := rfl
  have hml : (List.zipWith (fun a b => a - b) (calculate_ema s f)
      (calculate_ema s sl)).length = s.length := by
    simp [List.length_zipWith, length_ema]
  have hsig : (calculate_ema (List.zipWith (fun a b => a - b) (calculate_ema s f)
      (calculate_ema s sl)) sg).length = s.length := by
    rw [length_ema, hml]
  rw [hdef]
  exact getD_zipWith (fun a b => a - b) _ _ i 0 0 0 (by omega) (by omega)

/-- Witness for C4 at s = [1, 2], default periods, i = 1. -/
theorem macd_histogram_exact_witness :
    ((calculate_macd [1, 2] 12 26 9).2.2).getD 1 0 =
      ((calculate_macd [1, 2] 12 26 9).1).getD 1 0 -
      ((calculate_macd [1, 2] 12 26 9).2.1).getD 1 0 :=
  macd_histogram_exact [1, 2] 12 26 9 1 (by norm_num)

theorem zip_pv_eq_map (df : List Bar) :
    List.zipWith (fun t b => t * b.volume) (df.map typical_price) df =
      df.map (fun b => typical_price b * b.volume) := by
  induction df with
  | nil => rfl
  | cons b t ih => simp [ih]

theorem vwap_getD (df : List Bar) (i : ℕ) (hi : i < df.length) :
    (calculate_vwap df).getD i PF.nan =
      PF.div (PF.val (cumPV df i)) (PF.val (cumVol df i)) := by
  have hdef : calculate_vwap df =
      List.zipWith (fun n d => PF.div (PF.val n) (PF.val d))
        (cumsum (List.zipWith (fun t b => t * b.volume) (df.map typical_price) df))
        (cumsum (df.map Bar.volume)) := rfl
  have hznum : (List.zipWith (fun t b => t * b.volume)
      (df.map typical_price) df).length = df.length := by
    simp [List.length_zipWith]
  have hnum : (cumsum (List.zipWith (fun t b => t * b.volume)
      (df.map typical_price) df)).length = df.length := by
    rw [cumsum, cumsumGo_length, hznum]
  have hden : (cumsum (df.map Bar.volume)).length = df.length := by
    rw [cumsum, cumsumGo_length, List.length_map]
  rw [hdef, getD_zipWith (fun n d => PF.div (PF.val n) (PF.val d)) _ _ i 0 0 PF.nan
    (by omega) (by omega)]
  rw [cumsum, cumsum, cumsumGo_getD _ _ _ (by omega),
    cumsumGo_getD _ _ _ (by rw [List.length_map]; omega)]
  rw [zip_pv_eq_map]
  unfold cumPV cumVol
  rw [zero_add, zero_add]

/-- C7: VWAP at index i is the cumulative ratio of typical price times volume
over cumulative volume from index 0 through i, and is undefined (NaN)
whenever the cumulative volume at i is zero. -/
theorem vwap_cumulative_ratio (df : List Bar) (i : ℕ)
    (hvol : ∀ b ∈ df, 0 ≤ b.volume) (hi : i < df.length) :
    (cumVol df i ≠ 0 →
      (calculate_vwap df).getD i PF.nan = PF.val (cumPV df i / cumVol df i)) ∧
    (cumVol df i = 0 →
      (calculate_vwap df).getD i PF.nan = PF.nan) := by
  constructor
  · intro hnz
    rw [vwap_getD df i hi]
    simp [PF.div, hnz]
  · intro hz
    have hzc := hz
    unfold cumVol at hzc
    rw [← List.map_take] at hzc
    have hz' : ∀ v ∈ (df.take (i + 1)).map Bar.volume, v = 0 :=
      sum_zero_all_zero _ (fun v hv => by
        obtain ⟨b, hb, rfl⟩ := List.mem_map.mp hv
        exact hvol b (List.take_subset _ _ hb)) hzc
    have hpv : cumPV df i = 0 := by
      unfold cumPV
      rw [← List.map_take]
      apply List.sum_eq_zero
      intro x hx
      obtain ⟨b, hb, rfl⟩ := List.mem_map.mp hx
      have hb0 : b.volume = 0 := hz' b.volume (List.mem_map_of_mem Bar.volume hb)
      rw [hb0, mul_zero]
    rw [vwap_getD df i hi, hpv, hz]
    simp [PF.div]

/-- Witness for C7 at a two-bar series with zero volume everywhere: the
cumulative volume at index 1 is zero and VWAP there is NaN. -/
theorem vwap_cumulative_ratio_witness :
    cumVol [⟨1, 1, 1, 0⟩, ⟨2, 2, 2, 0⟩] 1 = 0 ∧
    (calculate_vwap [⟨1, 1, 1, 0⟩, ⟨2, 2, 2, 0⟩]).getD 1 PF.nan = PF.nan := by
  have hz : cumVol [⟨1, 1, 1, 0⟩, ⟨2, 2, 2, 0⟩] 1 = 0 := by
    norm_num [cumVol]
  have h := vwap_cumulative_ratio [⟨1, 1, 1, 0⟩, ⟨2, 2, 2, 0⟩] 1
    (by intro b hb; fin_cases hb <;> norm_num) (by norm_num)
  exact ⟨hz, h.2 hz⟩

/-- C6: the crossover detector never emits an event at index 0, never emits
both a buy and a sell at the same index, emits nothing at i when an operand
is undefined (NaN) at i-1 or at i, and on defined operands a buy fires at
i >= 1 exactly when a[i-1] <= b[i-1] and a[i] > b[i] and a sell exactly when
a[i-1] >= b[i-1] and a[i] < b[i], the emitted value being close[i]. -/
theorem crossover_detector_events (sma vwap : List PF) (close : List ℚ)
    (hal : sma.length = close.length) (hbl : vwap.length = close.length) :
    ((detect_crossovers sma vwap close).1.getD 0 none = none ∧
     (detect_crossovers sma vwap close).2.getD 0 none = none) ∧
    (∀ i, (detect_crossovers sma vwap close).1.getD i none = none ∨
          (detect_crossovers sma vwap close).2.getD i none = none) ∧
    (∀ i, (sma.getD (i - 1) PF.nan = PF.nan ∨ vwap.getD (i - 1) PF.nan = PF.nan ∨
           sma.getD i PF.nan = PF.nan ∨ vwap.getD i PF.nan = PF.nan) →
      (detect_crossovers sma vwap close).1.getD i none = none ∧
      (detect_crossovers sma vwap close).2.getD i none = none) ∧
    (∀ i x1 y1 x2 y2, 1 ≤ i → i < close.length →
      sma.getD (i - 1) PF.nan = PF.val x1 → vwap.getD (i - 1) PF.nan = PF.val y1 →
      sma.getD i PF.nan = PF.val x2 → vwap.getD i PF.nan = PF.val y2 →
      ((detect_crossovers sma vwap close).1.getD i none =
        if x1 ≤ y1 ∧ y2 < x2 then some (close.getD i 0) else none) ∧
      ((detect_crossovers sma vwap close).2.getD i none =
        if y1 ≤ x1 ∧ x2 < y2 then some (close.getD i 0) else none)) := by
  refine ⟨⟨?_, ?_⟩, ?_, ?_, ?_⟩
  · rw [detect_fst_getD, if_neg]
    rintro ⟨h, -⟩
    omega
  · rw [detect_snd_getD, if_neg]
    rintro ⟨h, -⟩
    omega
  · intro i
    rw [detect_fst_getD, detect_snd_getD]
    by_cases hb : 1 ≤ i ∧ i < close.length ∧ buyCondB sma vwap i = true
    · right
      rw [if_neg]
      rintro ⟨-, -, hsell⟩
      obtain ⟨-, -, hbuy⟩ := hb
      unfold buyCondB at hbuy
      unfold sellCondB at hsell
      rw [Bool.and_eq_true] at hbuy hsell
      have h1 := hbuy.2
      have h2 := hsell.2
      unfold PF.gtb at h1
      rw [PF.ltb_asymm _ _ h2] at h1
      exact Bool.false_ne_true h1
    · left
      rw [if_neg hb]
  · intro i hyp
    have hbuy : buyCondB sma vwap i = false := by
      unfold buyCondB PF.gtb
      rcases hyp with h | h | h | h <;> rw [h] <;>
        simp [PF.leb_nan_left, PF.leb_nan_right, PF.ltb_nan_left, PF.ltb_nan_right]
    have hsell : sellCondB sma vwap i = false := by
      unfold sellCondB PF.geb
      rcases hyp with h | h | h | h <;> rw [h] <;>
        simp [PF.leb_nan_left, PF.leb_nan_right, PF.ltb_nan_left, PF.ltb_nan_right]
    rw [detect_fst_getD, detect_snd_getD]
    constructor
    · rw [if_neg]
      rintro ⟨-, -, hc⟩
      rw [hbuy] at hc
      exact Bool.false_ne_true hc
    · rw [if_neg]
      rintro ⟨-, -, hc⟩
      rw [hsell] at hc
      exact Bool.false_ne_true hc
  · intro i x1 y1 x2 y2 h1i hil ha1 hb1 ha2 hb2
    rw [detect_fst_getD, detect_snd_getD]
    have hbuy : buyCondB sma vwap i = (decide (x1 ≤ y1) && decide (y2 < x2)) := by
      unfold buyCondB PF.gtb
      rw [ha1, hb1, ha2, hb2]
      rfl
    have hsell : sellCondB sma vwap i = (decide (y1 ≤ x1) && decide (x2 < y2)) := by
      unfold sellCondB PF.geb
      rw [ha1, hb1, ha2, hb2]
      rfl
    constructor
    · by_cases hc : x1 ≤ y1 ∧ y2 < x2
      · rw [if_pos ⟨h1i, hil, by rw [hbuy]; simp [hc.1, hc.2]⟩, if_pos hc]
      · rw [if_neg, if_neg hc]
        rintro ⟨-, -, hcc⟩
        rw [hbuy] at hcc
        simp only [Bool.and_eq_true, decide_eq_true_eq] at hcc
        exact hc hcc
    · by_cases hc : y1 ≤ x1 ∧ x2 < y2
      · rw [if_pos ⟨h1i, hil, by rw [hsell]; simp [hc.1, hc.2]⟩, if_pos hc]
      · rw [if_neg, if_neg hc]
        rintro ⟨-, -, hcc⟩
        rw [hsell] at hcc
        simp only [Bool.and_eq_true, decide_eq_true_eq] at hcc
        exact hc hcc

/-- Witness for C6 at the concrete series of the spec: a = [1,2,3,4] against
b = [4,3,2,1] yields no event at index 0 and the single buy at index 2
carrying the close there. -/
theorem crossover_detector_events_witness :
    (detect_crossovers [PF.val 1, PF.val 2, PF.val 3, PF.val 4]
      [PF.val 4, PF.val 3, PF.val 2, PF.val 1] [10, 20, 30, 40]).1.getD 0 none = none ∧
    (detect_crossovers [PF.val 1, PF.val 2, PF.val 3, PF.val 4]
      [PF.val 4, PF.val 3, PF.val 2, PF.val 1] [10, 20, 30, 40]).1.getD 2 none =
      some 30 := by
  have h := crossover_detector_events [PF.val 1, PF.val 2, PF.val 3, PF.val 4]
    [PF.val 4, PF.val 3, PF.val 2, PF.val 1] [10, 20, 30, 40] rfl rfl
  refine ⟨h.1.1, ?_⟩
  have h4 := (h.2.2.2 2 2 3 3 2 (by norm_num) (by norm_num) rfl rfl rfl rfl).1
  rw [h4, if_pos (by norm_num)]
  rfl

theorem length_shift1 (xs : List PF) : (App.shift1 xs).length = xs.length := by
  simp [App.shift1, List.length_take]

theorem shift1_getD (xs : List PF) (i : ℕ) (hi : i < xs.length) :
    (App.shift1 xs).getD i PF.nan =
      if i = 0 then PF.nan else xs.getD (i - 1) PF.nan := by
  unfold App.shift1
  cases i with
  | zero =>
      rw [List.getD_eq_getElem _ _ (by simp [List.length_take]; omega)]
      simp [List.getElem_take]
  | succ j =>
      have hj : j < xs.length := by omega
      rw [List.getD_eq_getElem _ _ (by simp [List.length_take]; omega)]
      rw [List.getD_eq_getElem _ _ (by simpa using hj)]
      simp [List.getElem_take]

theorem ext_of_getD {α : Type} (l1 l2 : List (Option α)) (hl : l1.length = l2.length)
    (h : ∀ i, i < l1.length → l1.getD i none = l2.getD i none) : l1 = l2 := by
  apply List.ext_get?_iff.mpr
  intro n
  rcases lt_or_le n l1.length with hn | hn
  · have hn2 : n < l2.length := by omega
    have hgd := h n hn
    rw [List.getD_eq_getElem _ _ hn, List.getD_eq_getElem _ _ hn2] at hgd
    rw [List.get?_eq_getElem?, List.get?_eq_getElem?,
      List.getElem?_eq_getElem hn, List.getElem?_eq_getElem hn2, hgd]
  · have hn2 : l2.length ≤ n := by omega
    rw [List.get?_eq_getElem?, List.get?_eq_getElem?,
      List.getElem?_eq_none hn, List.getElem?_eq_none hn2]

set_option maxHeartbeats 1600000 in
/-- C10: the loop crossover of src/indicators/calc.py and the vectorized
shift-based crossover of src/app.py agree on every bar series and SMA
period: identical buy series and identical sell series, and every marked
position carries the close price of that position. -/
theorem crossover_implementations_equivalent (df : List Bar) (p : ℕ) :
    calculate_vwap_crossover df p = App.calculate_vwap_crossover df p ∧
    (∀ i, (calculate_vwap_crossover df p).1.getD i none = none ∨
      (calculate_vwap_crossover df p).1.getD i none =
        some ((df.map Bar.close).getD i 0)) ∧
    (∀ i, (calculate_vwap_crossover df p).2.getD i none = none ∨
      (calculate_vwap_crossover df p).2.getD i none =
        some ((df.map Bar.close).getD i 0)) := by
  have hcalc : calculate_vwap_crossover df p =
      detect_crossovers (smaPF (df.map Bar.close) p) (calculate_vwap df)
        (df.map Bar.close) := rfl
  refine ⟨?_, ?_, ?_⟩
  · have happ : App.calculate_vwap_crossover df p =
        (List.zipWith (fun s c => if s then some c else none)
          (List.zipWith (fun a b => a && b)
            (List.zipWith PF.gtb (smaPF (df.map Bar.close) p) (calculate_vwap df))
            (List.zipWith PF.leb (App.shift1 (smaPF (df.map Bar.close) p))
              (App.shift1 (calculate_vwap df))))
          (df.map Bar.close),
         List.zipWith (fun s c => if s then some c else none)
          (List.zipWith (fun a b => a && b)
            (List.zipWith PF.ltb (smaPF (df.map Bar.close) p) (calculate_vwap df))
            (List.zipWith PF.geb (App.shift1 (smaPF (df.map Bar.close) p))
              (App.shift1 (calculate_vwap df))))
          (df.map Bar.close)) := rfl
    have hsl : (smaPF (df.map Bar.close) p).length = df.length := by
      rw [length_smaPF, List.length_map]
    have hvl : (calculate_vwap df).length = df.length := length_vwap df
    have hcl : (df.map Bar.close).length = df.length := List.length_map _ _
    have hshs : (App.shift1 (smaPF (df.map Bar.close) p)).length = df.length := by
      rw [length_shift1, hsl]
    have hshv : (App.shift1 (calculate_vwap df)).length = df.length := by
      rw [length_shift1, hvl]
    have hcur : (List.zipWith PF.gtb (smaPF (df.map Bar.close) p)
        (calculate_vwap df)).length = df.length := by
      simp [List.length_zipWith, hsl, hvl]
    have hcurlt : (List.zipWith PF.ltb (smaPF (df.map Bar.close) p)
        (calculate_vwap df)).length = df.length := by
      simp [List.length_zipWith, hsl, hvl]
    have hprev : (List.zipWith PF.leb (App.shift1 (smaPF (df.map Bar.close) p))
        (App.shift1 (calculate_vwap df))).length = df.length := by
      simp [List.length_zipWith, length_shift1, hsl, hvl]
    have hprevge : (List.zipWith PF.geb (App.shift1 (smaPF (df.map Bar.close) p))
        (App.shift1 (calculate_vwap df))).length = df.length := by
      simp [List.length_zipWith, length_shift1, hsl, hvl]
    have hsigbuy : (List.zipWith (fun a b => a && b)
        (List.zipWith PF.gtb (smaPF (df.map Bar.close) p) (calculate_vwap df))
        (List.zipWith PF.leb (App.shift1 (smaPF (df.map Bar.close) p))
          (App.shift1 (calculate_vwap df)))).length = df.length := by
      rw [List.length_zipWith, hcur, hprev, Nat.min_self]
    have hsigsell : (List.zipWith (fun a b => a && b)
        (List.zipWith PF.ltb (smaPF (df.map Bar.close) p) (calculate_vwap df))
        (List.zipWith PF.geb (App.shift1 (smaPF (df.map Bar.close) p))
          (App.shift1 (calculate_vwap df)))).length = df.length := by
      rw [List.length_zipWith, hcurlt, hprevge, Nat.min_self]
    have hbuy : ∀ i, i < df.length →
        (calculate_vwap_crossover df p).1.getD i none =
          (App.calculate_vwap_crossover df p).1.getD i none := by
      intro i hi
      rw [hcalc, happ, detect_fst_getD]
      rw [getD_zipWith (fun s c => if s then some c else none) _ _ i false 0 none
        (by omega) (by omega)]
      rw [getD_zipWith (fun a b => a && b) _ _ i false false false
        (by omega) (by omega)]
      rw [getD_zipWith PF.gtb _ _ i PF.nan PF.nan false (by omega) (by omega)]
      rw [getD_zipWith PF.leb _ _ i PF.nan PF.nan false (by omega) (by omega)]
      rw [shift1_getD _ _ (by omega), shift1_getD _ _ (by omega)]
      rcases Nat.eq_zero_or_pos i with rfl | hpos
      · have h0 : ¬(1 ≤ 0 ∧ 0 < (df.map Bar.close).length ∧
            buyCondB (smaPF (df.map Bar.close) p) (calculate_vwap df) 0 = true) := by
          rintro ⟨h, -⟩
          omega
        rw [if_neg h0]
        simp [PF.leb_nan_left]
      · have hne : i ≠ 0 := by omega
        rw [if_neg hne, if_neg hne]
        have hcomm : (PF.gtb ((smaPF (df.map Bar.close) p).getD i PF.nan)
              ((calculate_vwap df).getD i PF.nan) &&
            PF.leb ((smaPF (df.map Bar.close) p).getD (i - 1) PF.nan)
              ((calculate_vwap df).getD (i - 1) PF.nan)) =
            buyCondB (smaPF (df.map Bar.close) p) (calculate_vwap df) i := by
          unfold buyCondB
          exact Bool.and_comm _ _
        rw [hcomm]
        by_cases hc : buyCondB (smaPF (df.map Bar.close) p) (calculate_vwap df) i = true
        · rw [if_pos ⟨hpos, by omega, hc⟩, if_pos hc]
        · rw [if_neg, if_neg hc]
          rintro ⟨-, -, hcc⟩
          exact hc hcc
    have hsell : ∀ i, i < df.length →
        (calculate_vwap_crossover df p).2.getD i none =
          (App.calculate_vwap_crossover df p).2.getD i none := by
      intro i hi
      rw [hcalc, happ, detect_snd_getD]
      rw [getD_zipWith (fun s c => if s then some c else none) _ _ i false 0 none
        (by omega) (by omega)]
      rw [getD_zipWith (fun a b => a && b) _ _ i false false false
        (by omega) (by omega)]
      rw [getD_zipWith PF.ltb _ _ i PF.nan PF.nan false (by omega) (by omega)]
      rw [getD_zipWith PF.geb _ _ i PF.nan PF.nan false (by omega) (by omega)]
      rw [shift1_getD _ _ (by omega), shift1_getD _ _ (by omega)]
      rcases Nat.eq_zero_or_pos i with rfl | hpos
      · have h0 : ¬(1 ≤ 0 ∧ 0 < (df.map Bar.close).length ∧
            sellCondB (smaPF (df.map Bar.close) p) (calculate_vwap df) 0 = true) := by
          rintro ⟨h, -⟩
          omega
        rw [if_neg h0]
        simp [PF.geb, PF.leb_nan_left]
      · have hne : i ≠ 0 := by omega
        rw [if_neg hne, if_neg hne]
        have hcomm : (PF.ltb ((smaPF (df.map Bar.close) p).getD i PF.nan)
              ((calculate_vwap df).getD i PF.nan) &&
            PF.geb ((smaPF (df.map Bar.close) p).getD (i - 1) PF.nan)
              ((calculate_vwap df).getD (i - 1) PF.nan)) =
            sellCondB (smaPF (df.map Bar.close) p) (calculate_vwap df) i := by
          unfold sellCondB
          exact Bool.and_comm _ _
        rw [hcomm]
        by_cases hc : sellCondB (smaPF (df.map Bar.close) p) (calculate_vwap df) i = true
        · rw [if_pos ⟨hpos, by omega, hc⟩, if_pos hc]
        · rw [if_neg, if_neg hc]
          rintro ⟨-, -, hcc⟩
          exact hc hcc
    have hl1 : (calculate_vwap_crossover df p).1.length = df.length := by
      rw [hcalc, detect_fst_length, List.length_map]
    have hl2 : (calculate_vwap_crossover df p).2.length = df.length := by
      rw [hcalc, detect_snd_length, List.length_map]
    have hl1' : (App.calculate_vwap_crossover df p).1.length = df.length := by
      rw [happ]
      show (List.zipWith _ _ _).length = df.length
      rw [List.length_zipWith, hsigbuy, hcl, Nat.min_self]
    have hl2' : (App.calculate_vwap_crossover df p).2.length = df.length := by
      rw [happ]
      show (List.zipWith _ _ _).length = df.length
      rw [List.length_zipWith, hsigsell, hcl, Nat.min_self]
    have e1 : (calculate_vwap_crossover df p).1 = (App.calculate_vwap_crossover df p).1 :=
      ext_of_getD _ _ (by rw [hl1, hl1']) (fun i hi => hbuy i (by omega))
    have e2 : (calculate_vwap_crossover df p).2 = (App.calculate_vwap_crossover df p).2 :=
      ext_of_getD _ _ (by rw [hl2, hl2']) (fun i hi => hsell i (by omega))
    exact Prod.ext e1 e2
  · intro i
    rw [hcalc, detect_fst_getD]
    by_cases hc : 1 ≤ i ∧ i < (df.map Bar.close).length ∧
        buyCondB (smaPF (df.map Bar.close) p) (calculate_vwap df) i = true
    · right; rw [if_pos hc]
    · left; rw [if_neg hc]
  · intro i
    rw [hcalc, detect_snd_getD]
    by_cases hc : 1 ≤ i ∧ i < (df.map Bar.close).length ∧
        sellCondB (smaPF (df.map Bar.close) p) (calculate_vwap df) i = true
    · right; rw [if_pos hc]
    · left; rw [if_neg hc]

/-- C9: the Wilder exponential-smoothing RSI of src/indicators/calc.py and
the plain rolling-mean RSI of src/app.py are divergent: on the series
[1, 3, 2, 4] with window 2 they produce different values at index 3
(600/7 against 200/3). -/
theorem rsi_implementations_diverge :
    (calculate_rsi [1, 3, 2, 4] 2).getD 3 PF.nan ≠
      (App.calculate_rsi [1, 3, 2, 4] 2).getD 3 PF.nan := by
  have h1 : (calculate_rsi [1, 3, 2, 4] 2).getD 3 PF.nan = PF.val (600/7) := by
    norm_num [calculate_rsi, diffPF, ewmPF, ewmGo, PF.clipLower0, PF.clipUpper0,
      PF.mul, PF.div, PF.add, PF.sub, PF.neg]
  have h2 : (App.calculate_rsi [1, 3, 2, 4] 2).getD 3 PF.nan = PF.val (200/3) := by
    norm_num [App.calculate_rsi, App.rollingMeanPF, App.pfVals, App.whereGain,
      App.whereLoss, diffPF, PF.gtb, PF.ltb, PF.div, PF.add, PF.sub, PF.neg,
      List.range_succ]
  rw [h1, h2]
  simp only [ne_eq, PF.val.injEq]
  norm_num

/-- C1 (code bug): at the constant series [5, 5] with the default window 14,
the smoothed gain and the smoothed loss at index 1 are both zero, yet the
RSI of src/indicators/calc.py at index 1 is NaN (the 0/0 division
propagates), not the neutral 50 the claim mandates through an explicit
branch; no branch exists in the code. -/
theorem rsi_edge_policy_violated :
    (ewmPF (1 / (1 + ((14 : ℚ) - 1))) ((diffPF [5, 5]).map PF.clipLower0)).getD 1 PF.nan
      = PF.val 0 ∧
    (ewmPF (1 / (1 + ((14 : ℚ) - 1)))
      ((diffPF [5, 5]).map (fun d => PF.mul (PF.val (-1)) (PF.clipUpper0 d)))).getD 1 PF.nan
      = PF.val 0 ∧
    (calculate_rsi [5, 5] 14).getD 1 PF.nan = PF.nan := by
  refine ⟨?_, ?_, ?_⟩ <;>
    norm_num [calculate_rsi, diffPF, ewmPF, ewmGo, PF.clipLower0, PF.clipUpper0,
      PF.mul, PF.div, PF.add, PF.sub, PF.neg]

/-- C8 counterexample: the SMA engine does not raise on the non-positive
window 0: pandas accepts window 0 (its check is only that the window is an
integer 0 or greater) and the computation proceeds to an entirely undefined
series, refuting the claim that every engine raises an invalid-parameter
error on every non-positive window. -/
theorem sma_zero_window_not_rejected :
    calculate_sma_checked [1, 2, 3] 0 = Except.ok [none, none, none] := by
  norm_num [calculate_sma_checked, calculate_sma, List.range_succ]

/-- C8 amended: validation is the fail-fast check of the pandas
constructors: a negative window raises for the rolling engines, a span below
1 and a center of mass below 0 (window below 1) raise for the exponential
engines, all before any computation; window 0 for the rolling mean is
accepted and every non-negative rolling window and positive ewm parameter
never raises on any series; a window larger than the series length is not an
error and yields an entirely undefined series. -/
theorem engine_parameter_validation (s : List ℚ) (w : ℤ) :
    (calculate_sma_checked s w = if w < 0 then
      Except.error "window must be an integer 0 or greater"
      else Except.ok (calculate_sma s w.toNat)) ∧
    (calculate_ema_checked s w = if w < 1 then
      Except.error "span must satisfy: span >= 1"
      else Except.ok (calculate_ema s w.toNat)) ∧
    (calculate_rsi_checked s w = if w - 1 < 0 then
      Except.error "comass must satisfy: comass >= 0"
      else Except.ok (calculate_rsi s w.toNat)) ∧
    (∀ n i : ℕ, (calculate_sma s (s.length + n + 1)).getD i none = none) := by
  refine ⟨rfl, rfl, rfl, ?_⟩
  intro n i
  rw [calculate_sma, getD_map_range]
  by_cases hil : i < s.length
  · rw [if_pos hil, if_neg]
    rintro ⟨-, hw⟩
    omega
  · rw [if_neg hil]

/-- C5: wherever the upper, middle and lower Bollinger bands are all defined
and the multiplier is non-negative, lower <= middle <= upper, the middle
band being the rolling mean and the band offset the sample rolling standard
deviation times the multiplier. -/
theorem bollinger_band_order (s : List ℚ) (w : ℕ) (k : ℝ) (i : ℕ)
    (hk : 0 ≤ k) (u m l : ℝ)
    (hu : ((calculate_bollinger_bands s w k).1).getD i none = some u)
    (hm : ((calculate_bollinger_bands s w k).2.1).getD i none = some m)
    (hl : ((calculate_bollinger_bands s w k).2.2).getD i none = some l) :
    l ≤ m ∧ m ≤ u := by
  have hdef : calculate_bollinger_bands s w k =
      (List.zipWith (fun mo so => match mo, so with
        | some mv, some sv => some (mv + sv * k)
        | _, _ => none)
        ((calculate_sma s w).map (Option.map (fun q : ℚ => (q : ℝ)))) (rolling_std s w),
       (calculate_sma s w).map (Option.map (fun q : ℚ => (q : ℝ))),
       List.zipWith (fun mo so => match mo, so with
        | some mv, some sv => some (mv - sv * k)
        | _, _ => none)
        ((calculate_sma s w).map (Option.map (fun q : ℚ => (q : ℝ)))) (rolling_std s w)) := rfl
  rw [hdef] at hu hm hl
  have hmidlen : ((calculate_sma s w).map (Option.map (fun q : ℚ => (q : ℝ)))).length
      = s.length := by rw [List.length_map, length_sma]
  have hstdlen : (rolling_std s w).length = s.length := by
    simp [rolling_std]
  have hiu : i < s.length := by
    by_contra hge
    rw [List.getD_eq_default] at hu
    · exact Option.noConfusion hu
    · rw [List.length_zipWith, hmidlen, hstdlen]
      omega
  rw [getD_zipWith _ _ _ i none none none (by omega) (by omega)] at hu
  rw [getD_zipWith _ _ _ i none none none (by omega) (by omega)] at hl
  rcases hmid : ((calculate_sma s w).map (Option.map (fun q : ℚ => (q : ℝ)))).getD i none
    with _ | mv
  · rw [hmid] at hu
    exact absurd hu (by simp)
  · rcases hstd : (rolling_std s w).getD i none with _ | sv
    · rw [hmid, hstd] at hu
      exact absurd hu (by simp)
    · rw [hmid, hstd] at hu hl
      rw [hmid] at hm
      have hu' : mv + sv * k = u := Option.some.inj hu
      have hl' : mv - sv * k = l := Option.some.inj hl
      have hm' : mv = m := Option.some.inj hm
      have hsv : 0 ≤ sv := by
        rw [rolling_std, getD_map_range, if_pos hiu] at hstd
        by_cases hcond : 2 ≤ w ∧ w ≤ i + 1
        · simp only [if_pos hcond] at hstd
          have h2 := Option.some.inj hstd
          rw [← h2]
          exact Real.sqrt_nonneg _
        · simp only [if_neg hcond] at hstd
          exact absurd hstd (by simp)
      have hprod : 0 ≤ sv * k := mul_nonneg hsv hk
      exact ⟨by linarith, by linarith⟩

/-- Witness for C5 at the constant series [1, 1], window 2, multiplier 2:
all three bands defined at index 1 with value 1, and the ordering holds. -/
theorem bollinger_band_order_witness :
    ((calculate_bollinger_bands [1, 1] 2 2).1).getD 1 none = some (1 : ℝ) ∧
    ((1 : ℝ) ≤ 1 ∧ (1 : ℝ) ≤ 1) := by
  have hu : ((calculate_bollinger_bands [1, 1] 2 2).1).getD 1 none = some (1 : ℝ) := by
    norm_num [calculate_bollinger_bands, rolling_std, calculate_sma, List.range_succ,
      Real.sqrt_zero]
  have hm : ((calculate_bollinger_bands [1, 1] 2 2).2.1).getD 1 none = some (1 : ℝ) := by
    norm_num [calculate_bollinger_bands, calculate_sma, List.range_succ]
  have hl : ((calculate_bollinger_bands [1, 1] 2 2).2.2).getD 1 none = some (1 : ℝ) := by
    norm_num [calculate_bollinger_bands, rolling_std, calculate_sma, List.range_succ,
      Real.sqrt_zero]
  exact ⟨hu, bollinger_band_order [1, 1] 2 2 1 (by norm_num) 1 1 1 hu hm hl⟩
